import Mathlib

/-!
Verification of the Liteshift financial-projection backends.

The development shallowly embeds the numerical core of the four FastAPI
calculators (compound growth, drawdown, FIRE, mortgage amortization) over
exact rational arithmetic `ℚ`.  Random draws and the transcendental
exponential are treated as parameters of the embedding:

* `z : ℕ → ℕ → ℚ` stands for the matrix of standard-normal draws produced
  by `np.random` (row = simulation index, column = period), which is a
  deterministic function of the seed once `np.random.seed` has been called;
* `E : ℚ → ℚ` stands for the floating-point exponential `np.exp`
  (theorems that need a property of `exp`, such as `E 0 = 1` or
  positivity, take it as an explicit hypothesis);
* `sd : ℚ` stands for the computed value of `np.sqrt(dt)`.

All list/array manipulations are translated function-by-function from
`src/apps/*/backend/main.py`.
-/

/-- Column-wise extraction from a path-ensemble matrix
(`wealth[:, t]` / `dd[:, t]` in the sources): row `i` contributes its
`t`-th entry. -/
def column (W : List (List ℚ)) (t : ℕ) : List ℚ :=
  W.map (fun row => row.getD t 0)

/-- `np.percentile(xs, q)` with the default linear-interpolation method:
sort ascending, take `h = q·(n−1)/100`, and linearly interpolate between
the order statistics at `⌊h⌋` and `⌊h⌋+1` (the upper index clamped to
`n−1`).  On an empty list every access defaults to `0`. -/
def npPercentile (xs : List ℚ) (q : ℚ) : ℚ :=
  let v := List.insertionSort (· ≤ ·) xs
  let n := v.length
  let h := q * ((n : ℚ) - 1) / 100
  let lo := (⌊h⌋).toNat
  let hi := min (lo + 1) (n - 1)
  v.getD lo 0 + (h - (lo : ℚ)) * (v.getD hi 0 - v.getD lo 0)

/-- The interpolation kernel of `npPercentile`, abstracted over the
already-sorted list `v` and the fractional index `h`. -/
def interpAt (v : List ℚ) (h : ℚ) : ℚ :=
  let n := v.length
  let lo := (⌊h⌋).toNat
  let hi := min (lo + 1) (n - 1)
  v.getD lo 0 + (h - (lo : ℚ)) * (v.getD hi 0 - v.getD lo 0)

theorem npPercentile_eq_interpAt (xs : List ℚ) (q : ℚ) :
    npPercentile xs q =
      interpAt (List.insertionSort (· ≤ ·) xs)
        (q * (((List.insertionSort (· ≤ ·) xs).length : ℚ) - 1) / 100) := rfl

theorem sorted_getD_mono (v : List ℚ) (hv : v.Sorted (· ≤ ·)) {i j : ℕ}
    (hij : i ≤ j) (hj : j < v.length) : v.getD i 0 ≤ v.getD j 0 := by
  have hi : i < v.length := lt_of_le_of_lt hij hj
  rw [List.getD_eq_getElem v 0 hi, List.getD_eq_getElem v 0 hj]
  have := hv.rel_get_of_le (a := ⟨i, hi⟩) (b := ⟨j, hj⟩) hij
  simpa using this

theorem interpAt_le_upper (v : List ℚ) (hv : v.Sorted (· ≤ ·)) {h : ℚ}
    (h0 : 0 ≤ h) (hlt : (⌊h⌋).toNat < v.length) :
    interpAt v h ≤ v.getD (min ((⌊h⌋).toNat + 1) (v.length - 1)) 0 := by
  set lo := (⌊h⌋).toNat with hlo
  set hi := min (lo + 1) (v.length - 1) with hhi
  have hcast : ((lo : ℤ) : ℚ) = ((⌊h⌋ : ℤ) : ℚ) := by
    rw [hlo, Int.toNat_of_nonneg (Int.floor_nonneg.2 h0)]
  have hfrac0 : 0 ≤ h - (lo : ℚ) := by
    have := Int.floor_le h
    push_cast at hcast ⊢
    linarith
  have hfrac1 : h - (lo : ℚ) ≤ 1 := by
    have := Int.lt_floor_add_one h
    push_cast at hcast ⊢
    linarith
  have hhi_lt : hi < v.length := by
    rw [hhi]; omega
  have hmono : v.getD lo 0 ≤ v.getD hi 0 := by
    apply sorted_getD_mono v hv _ hhi_lt
    rw [hhi]; omega
  show v.getD lo 0 + (h - (lo : ℚ)) * (v.getD hi 0 - v.getD lo 0) ≤ v.getD hi 0
  nlinarith [hfrac0, hfrac1, hmono]

theorem lower_le_interpAt (v : List ℚ) (hv : v.Sorted (· ≤ ·)) {h : ℚ}
    (h0 : 0 ≤ h) (hlt : (⌊h⌋).toNat < v.length) :
    v.getD (⌊h⌋).toNat 0 ≤ interpAt v h := by
  set lo := (⌊h⌋).toNat with hlo
  set hi := min (lo + 1) (v.length - 1) with hhi
  have hcast : ((lo : ℤ) : ℚ) = ((⌊h⌋ : ℤ) : ℚ) := by
    rw [hlo, Int.toNat_of_nonneg (Int.floor_nonneg.2 h0)]
  have hfrac0 : 0 ≤ h - (lo : ℚ) := by
    have := Int.floor_le h
    push_cast at hcast ⊢
    linarith
  have hhi_lt : hi < v.length := by
    rw [hhi]; omega
  have hmono : v.getD lo 0 ≤ v.getD hi 0 := by
    apply sorted_getD_mono v hv _ hhi_lt
    rw [hhi]; omega
  show v.getD lo 0 ≤ v.getD lo 0 + (h - (lo : ℚ)) * (v.getD hi 0 - v.getD lo 0)
  nlinarith [hfrac0, hmono]

theorem interpAt_mono (v : List ℚ) (hv : v.Sorted (· ≤ ·)) {a b : ℚ}
    (h0 : 0 ≤ a) (hab : a ≤ b) (hb : b ≤ (v.length : ℚ) - 1)
    (hne : v ≠ []) : interpAt v a ≤ interpAt v b := by
  have hnlen : 0 < v.length := List.length_pos.2 hne
  have hb0 : 0 ≤ b := le_trans h0 hab
  set la := (⌊a⌋).toNat with hla
  set lb := (⌊b⌋).toNat with hlb
  have hcasta : ((la : ℤ) : ℚ) = ((⌊a⌋ : ℤ) : ℚ) := by
    rw [hla, Int.toNat_of_nonneg (Int.floor_nonneg.2 h0)]
  have hcastb : ((lb : ℤ) : ℚ) = ((⌊b⌋ : ℤ) : ℚ) := by
    rw [hlb, Int.toNat_of_nonneg (Int.floor_nonneg.2 hb0)]
  have hlab : la ≤ lb := by
    rw [hla, hlb]
    exact Int.toNat_le_toNat (Int.floor_le_floor hab)
  have hlb_le : lb ≤ v.length - 1 := by
    have hfl : (⌊b⌋ : ℚ) ≤ (v.length : ℚ) - 1 := le_trans (Int.floor_le b) hb
    have : (⌊b⌋ : ℤ) ≤ (v.length : ℤ) - 1 := by exact_mod_cast hfl
    omega
  have hlb_lt : lb < v.length := by omega
  have hla_lt : la < v.length := by omega
  rcases Nat.eq_or_lt_of_le hlab with heq | hlt
  · -- same interpolation cell: the difference is (b − a) times a
    -- nonnegative slope
    have hib : ⌊a⌋ = ⌊b⌋ := by
      have h1 : (0:ℤ) ≤ ⌊a⌋ := Int.floor_nonneg.2 h0
      have h2 : (0:ℤ) ≤ ⌊b⌋ := Int.floor_nonneg.2 hb0
      omega
    have hmono : v.getD la 0 ≤ v.getD (min (la + 1) (v.length - 1)) 0 := by
      apply sorted_getD_mono v hv
      · omega
      · omega
    have e1 : interpAt v a = v.getD la 0 +
        (a - (la : ℚ)) * (v.getD (min (la + 1) (v.length - 1)) 0 - v.getD la 0) := rfl
    have e2 : interpAt v b = v.getD lb 0 +
        (b - (lb : ℚ)) * (v.getD (min (lb + 1) (v.length - 1)) 0 - v.getD lb 0) := rfl
    rw [e1, e2, ← heq]
    nlinarith [mul_le_mul_of_nonneg_right hab (sub_nonneg.2 hmono)]
  · -- the cells are distinct: chain through the shared order statistics
    have h1 : interpAt v a ≤ v.getD (min (la + 1) (v.length - 1)) 0 :=
      interpAt_le_upper v hv h0 hla_lt
    have h2 : v.getD lb 0 ≤ interpAt v b :=
      lower_le_interpAt v hv hb0 hlb_lt
    have h3 : v.getD (min (la + 1) (v.length - 1)) 0 ≤ v.getD lb 0 := by
      apply sorted_getD_mono v hv _ hlb_lt
      omega
    exact le_trans h1 (le_trans h3 h2)

theorem npPercentile_mono (xs : List ℚ) {q₁ q₂ : ℚ}
    (h0 : 0 ≤ q₁) (h12 : q₁ ≤ q₂) (h100 : q₂ ≤ 100) :
    npPercentile xs q₁ ≤ npPercentile xs q₂ := by
  rw [npPercentile_eq_interpAt, npPercentile_eq_interpAt]
  set v := List.insertionSort (· ≤ ·) xs with hv
  have hsorted : v.Sorted (· ≤ ·) := List.sorted_insertionSort _ xs
  rcases eq_or_ne v [] with hnil | hne
  · rw [hnil]
    simp [interpAt]
  · have hnlen : 0 < v.length := List.length_pos.2 hne
    have hn1 : (1:ℚ) ≤ (v.length : ℚ) := by exact_mod_cast hnlen
    apply interpAt_mono v hsorted
    · exact div_nonneg (mul_nonneg h0 (by linarith)) (by norm_num)
    · have hs : (0:ℚ) ≤ (v.length : ℚ) - 1 := by linarith
      linarith [mul_le_mul_of_nonneg_right h12 hs]
    · have hs : (0:ℚ) ≤ (v.length : ℚ) - 1 := by linarith
      linarith [mul_le_mul_of_nonneg_right h100 hs]
    · exact hne

/-- The shared wealth recurrence of the simulators
(`wealth[t] = wealth[t-1] * factor[t-1] + flow[t-1]`). -/
def wealthRec (init : ℚ) (f : ℕ → ℚ) (flow : ℕ → ℚ) : ℕ → ℚ
  | 0 => init
  | t + 1 => wealthRec init f flow t * f t + flow t

/-- Request record of the compound-growth calculator (`SimRequest` in
`src/apps/compound/backend/main.py`). -/
structure SimRequest where
  initial : ℚ
  annual_contribution : ℚ
  contribution_growth : ℚ
  years : ℕ
  n_sims : ℕ
  expected_return : ℚ
  volatility : ℚ
  expense_ratio : ℚ
  inflation : ℚ
  target : Option ℚ
  frequency : ℕ
  seed : Option ℤ

/-- `np.repeat(contrib_per_year / frequency, frequency)`: the per-year
amounts `A·(1+g)^y`, divided by the frequency and each repeated
`frequency` times. -/
def contribSchedule (A g : ℚ) (years freq : ℕ) : List ℚ :=
  ((List.range years).map (fun y => A * (1 + g) ^ y / (freq : ℚ))).flatMap
    (fun c => List.replicate freq c)

/-- `drift = (mu_net - 0.5 * volatility**2) * dt` with
`mu_net = expected_return - expense_ratio` and `dt = 1/frequency`. -/
def compoundDrift (req : SimRequest) : ℚ :=
  (req.expected_return - req.expense_ratio - (1/2) * req.volatility ^ 2) *
    (1 / (req.frequency : ℚ))

/-- One growth factor `exp(shock)` where
`shock ~ normal(drift, volatility * sqrt(dt))` is modelled as
`drift + volatility * sd * z i t`. -/
def compoundFactor (req : SimRequest) (E : ℚ → ℚ) (sd : ℚ)
    (z : ℕ → ℕ → ℚ) (i t : ℕ) : ℚ :=
  E (compoundDrift req + req.volatility * sd * z i t)

/-- Wealth trajectory of simulation `i` in `simulate_paths`. -/
def compoundPath (req : SimRequest) (E : ℚ → ℚ) (sd : ℚ)
    (z : ℕ → ℕ → ℚ) (i : ℕ) : ℕ → ℚ :=
  wealthRec req.initial (compoundFactor req E sd z i)
    (fun t =>
      (contribSchedule req.annual_contribution req.contribution_growth
        req.years req.frequency).getD t 0)

/-- The `n_sims × (T+1)` wealth ensemble of `simulate_paths`. -/
def compoundWealthMatrix (req : SimRequest) (E : ℚ → ℚ) (sd : ℚ)
    (z : ℕ → ℕ → ℚ) : List (List ℚ) :=
  (List.range req.n_sims).map (fun i =>
    (List.range (req.years * req.frequency + 1)).map
      (fun t => compoundPath req E sd z i t))

/-- Request record of the FIRE calculator (`FireRequest` in
`src/apps/fire/backend/main.py`). -/
structure FireRequest where
  initial_balance : ℚ
  monthly_disposable : ℚ
  monthly_drawdown : ℚ
  years_to_retire : ℕ
  years_in_retirement : ℕ
  expected_return_accum : ℚ
  expected_return_ret : ℚ
  volatility : ℚ
  inflation : ℚ
  expense_ratio : ℚ
  n_sims : ℕ
  frequency : ℕ
  decimals : ℤ
  seed : Option ℤ

def fireTacc (req : FireRequest) : ℕ := req.years_to_retire * req.frequency

def fireTret (req : FireRequest) : ℕ := req.years_in_retirement * req.frequency

def fireT (req : FireRequest) : ℕ := fireTacc req + fireTret req

/-- The per-period amount state of the FIRE schedule loops: start at `A`
and multiply by `(1 + g)` after every period `m` with `(m+1) % 12 == 0`
(the code bumps every 12 periods, commented "once every 12 months"). -/
def bumpSeq (A g : ℚ) : ℕ → ℚ
  | 0 => A
  | m + 1 => if (m + 1) % 12 = 0 then bumpSeq A g m * (1 + g) else bumpSeq A g m

/-- `contrib[m]` of the FIRE schedule (zero during retirement). -/
def fireContrib (req : FireRequest) (m : ℕ) : ℚ :=
  if m < fireTacc req then bumpSeq req.monthly_disposable req.inflation m else 0

/-- `draw[m]` of the FIRE schedule (zero during accumulation). -/
def fireDraw (req : FireRequest) (m : ℕ) : ℚ :=
  if m < fireTacc req then 0
  else bumpSeq req.monthly_drawdown req.inflation (m - fireTacc req)

def fireDriftAcc (req : FireRequest) : ℚ :=
  (req.expected_return_accum - req.expense_ratio -
    (1/2) * req.volatility ^ 2) * (1 / (req.frequency : ℚ))

def fireDriftRet (req : FireRequest) : ℚ :=
  (req.expected_return_ret - req.expense_ratio -
    (1/2) * req.volatility ^ 2) * (1 / (req.frequency : ℚ))

/-- Piecewise growth factors: accumulation drift before `T_acc`,
retirement drift afterwards, sharing one shock matrix. -/
def fireFactor (req : FireRequest) (E : ℚ → ℚ) (sd : ℚ)
    (z : ℕ → ℕ → ℚ) (i t : ℕ) : ℚ :=
  if t < fireTacc req then E (fireDriftAcc req + req.volatility * sd * z i t)
  else E (fireDriftRet req + req.volatility * sd * z i t)

/-- FIRE wealth path: grow, apply net flow, clamp at zero
(`np.maximum(wealth, 0.0)`). -/
def fireWealth (req : FireRequest) (E : ℚ → ℚ) (sd : ℚ)
    (z : ℕ → ℕ → ℚ) (i : ℕ) : ℕ → ℚ
  | 0 => req.initial_balance
  | t + 1 =>
    max (fireWealth req E sd z i t * fireFactor req E sd z i t +
      (fireContrib req t - fireDraw req t)) 0

def fireWealthMatrix (req : FireRequest) (E : ℚ → ℚ) (sd : ℚ)
    (z : ℕ → ℕ → ℚ) : List (List ℚ) :=
  (List.range req.n_sims).map (fun i =>
    (List.range (fireT req + 1)).map (fun t => fireWealth req E sd z i t))

/-- `time_to_zero` of one path: the first `t` in `[T_acc+1, T]` with
wealth ≤ 0 gives `t - T_acc`; otherwise the full retirement length. -/
def fireLongevity (req : FireRequest) (E : ℚ → ℚ) (sd : ℚ)
    (z : ℕ → ℕ → ℚ) (i : ℕ) : ℕ :=
  match (List.range' (fireTacc req + 1) (fireTret req)).find?
      (fun t => decide (fireWealth req E sd z i t ≤ 0)) with
  | some t => t - fireTacc req
  | none => fireTret req

/-- `prob_nonzero_end = np.mean(terminal > 0)`. -/
def fireProbNonzeroEnd (req : FireRequest) (E : ℚ → ℚ) (sd : ℚ)
    (z : ℕ → ℕ → ℚ) : ℚ :=
  (((List.range req.n_sims).filter
    (fun i => decide (0 < fireWealth req E sd z i (fireT req)))).length : ℚ) /
    (req.n_sims : ℚ)

/-- Request record of the drawdown calculator (`DrawdownRequest` in
`src/apps/drawdown/backend/main.py`). -/
structure DrawdownRequest where
  years : ℕ
  expected_return : ℚ
  volatility : ℚ
  expense_ratio : ℚ
  n_sims : ℕ
  frequency : ℕ
  decimals : ℤ
  seed : Option ℤ

def ddDrift (req : DrawdownRequest) : ℚ :=
  (req.expected_return - req.expense_ratio - (1/2) * req.volatility ^ 2) *
    (1 / (req.frequency : ℚ))

def ddFactor (req : DrawdownRequest) (E : ℚ → ℚ) (sd : ℚ)
    (z : ℕ → ℕ → ℚ) (i t : ℕ) : ℚ :=
  E (ddDrift req + req.volatility * sd * z i t)

/-- `prices[:, 1:] = np.cumprod(factors)` with `prices[:, 0] = 1`. -/
def ddPrice (req : DrawdownRequest) (E : ℚ → ℚ) (sd : ℚ)
    (z : ℕ → ℕ → ℚ) (i : ℕ) : ℕ → ℚ
  | 0 => 1
  | t + 1 => ddPrice req E sd z i t * ddFactor req E sd z i t

def ddPriceMatrix (req : DrawdownRequest) (E : ℚ → ℚ) (sd : ℚ)
    (z : ℕ → ℕ → ℚ) : List (List ℚ) :=
  (List.range req.n_sims).map (fun i =>
    (List.range (req.years * req.frequency + 1)).map
      (fun t => ddPrice req E sd z i t))

def runningMaxAux (cur : ℚ) : List ℚ → List ℚ
  | [] => []
  | x :: xs => max cur x :: runningMaxAux (max cur x) xs

/-- `np.maximum.accumulate` along a row. -/
def runningMax : List ℚ → List ℚ
  | [] => []
  | x :: xs => x :: runningMaxAux x xs

/-- Row-wise drawdown series `(value - running_peak) / running_peak`
(the drawdown app divides by the raw running peak, lines 64-65/79-80). -/
def ddSeries (path : List ℚ) : List ℚ :=
  List.zipWith (fun p pk => (p - pk) / pk) path (runningMax path)

/-- The `n_sims × (T+1)` drawdown ensemble `dd` of the drawdown app. -/
def ddMatrix (req : DrawdownRequest) (E : ℚ → ℚ) (sd : ℚ)
    (z : ℕ → ℕ → ℚ) : List (List ℚ) :=
  (ddPriceMatrix req E sd z).map ddSeries

/-- Whether the five percentile values of column `t` of ensemble `W` are
in order — the PathEnsemble band invariant of the spec. -/
def bandOrdered (W : List (List ℚ)) (t : ℕ) : Prop :=
  npPercentile (column W t) 10 ≤ npPercentile (column W t) 25 ∧
  npPercentile (column W t) 25 ≤ npPercentile (column W t) 50 ∧
  npPercentile (column W t) 50 ≤ npPercentile (column W t) 75 ∧
  npPercentile (column W t) 75 ≤ npPercentile (column W t) 90

/-- **C1.** For every path ensemble — in particular those produced by the
compound, FIRE and drawdown simulators — and every period column, the
extracted percentile values satisfy `p10 ≤ p25 ≤ p50 ≤ p75 ≤ p90`. -/
theorem percentile_band_order :
    (∀ (W : List (List ℚ)) (t : ℕ), bandOrdered W t) ∧
    (∀ (req : SimRequest) (E : ℚ → ℚ) (sd : ℚ) (z : ℕ → ℕ → ℚ) (t : ℕ),
      bandOrdered (compoundWealthMatrix req E sd z) t) ∧
    (∀ (req : FireRequest) (E : ℚ → ℚ) (sd : ℚ) (z : ℕ → ℕ → ℚ) (t : ℕ),
      bandOrdered (fireWealthMatrix req E sd z) t) ∧
    (∀ (req : DrawdownRequest) (E : ℚ → ℚ) (sd : ℚ) (z : ℕ → ℕ → ℚ) (t : ℕ),
      bandOrdered (ddMatrix req E sd z) t) := by
  have base : ∀ (W : List (List ℚ)) (t : ℕ), bandOrdered W t := by
    intro W t
    refine ⟨?_, ?_, ?_, ?_⟩ <;>
      exact npPercentile_mono _ (by norm_num) (by norm_num) (by norm_num)
  exact ⟨base, fun req E sd z t => base _ t, fun req E sd z t => base _ t,
    fun req E sd z t => base _ t⟩

/-- The concrete request of the end-to-end scenario in the spec:
initial 0, annual contribution 12000, no growth, one year, monthly,
deterministic (zero volatility, zero net return), a single path. -/
def flatReq : SimRequest :=
  { initial := 0, annual_contribution := 12000, contribution_growth := 0,
    years := 1, n_sims := 1, expected_return := 0, volatility := 0,
    expense_ratio := 0, inflation := 2/100, target := none,
    frequency := 12, seed := some 42 }

/-- **C2.** With initial 0, annual contribution 12000, zero growth, one
year at monthly frequency, zero volatility/return/fees and one
simulation, the terminal wealth of every path and of the median band is
exactly 12000.  The only fact needed about the exponential is
`E 0 = 1` (exact even in IEEE arithmetic). -/
theorem compound_flat_terminal_12000 (E : ℚ → ℚ) (sd : ℚ)
    (z : ℕ → ℕ → ℚ) (hE : E 0 = 1) :
    (∀ i < flatReq.n_sims, compoundPath flatReq E sd z i 12 = 12000) ∧
    npPercentile (column (compoundWealthMatrix flatReq E sd z) 12) 50 = 12000 := by
  have hfun : compoundFactor flatReq E sd z = fun i t => 1 := by
    funext i t
    have harg : compoundDrift flatReq + flatReq.volatility * sd * z i t = 0 := by
      show ((0:ℚ) - 0 - (1/2) * 0 ^ 2) * (1 / ((12:ℕ) : ℚ)) + 0 * sd * z i t = 0
      norm_num
    show E (compoundDrift flatReq + flatReq.volatility * sd * z i t) = 1
    rw [harg, hE]
  constructor
  · intro i hi
    have hi0 : i = 0 := Nat.lt_one_iff.mp hi
    subst hi0
    unfold compoundPath
    rw [hfun]
    norm_num [wealthRec, contribSchedule, flatReq]
  · unfold compoundWealthMatrix compoundPath
    rw [hfun]
    norm_num [wealthRec, contribSchedule, flatReq, column, npPercentile,
      List.range_succ, List.insertionSort, List.orderedInsert]

/-- **C2 witness.** The theorem instantiated at the identity-free
exponential `fun _ => 1` (consistent with `exp 0 = 1`) and the all-zero
draw matrix. -/
theorem compound_flat_terminal_12000_witness :
    (∀ i < flatReq.n_sims,
      compoundPath flatReq (fun _ => 1) 0 (fun _ _ => 0) i 12 = 12000) ∧
    npPercentile
      (column (compoundWealthMatrix flatReq (fun _ => 1) 0 (fun _ _ => 0)) 12)
      50 = 12000 :=
  compound_flat_terminal_12000 (fun _ => 1) 0 (fun _ _ => 0) rfl

/-- In the embedding the pseudorandom draws are a function of the seed:
`np.random.seed(seed)` followed by the generator calls yields a stream
fully determined by the seed value. -/
def compoundRun (req : SimRequest) (E : ℚ → ℚ) (sd : ℚ)
    (rng : Option ℤ → ℕ → ℕ → ℚ) : List (List ℚ) :=
  compoundWealthMatrix req E sd (rng req.seed)

def fireRun (req : FireRequest) (E : ℚ → ℚ) (sd : ℚ)
    (rng : Option ℤ → ℕ → ℕ → ℚ) : List (List ℚ) :=
  fireWealthMatrix req E sd (rng req.seed)

def ddRun (req : DrawdownRequest) (E : ℚ → ℚ) (sd : ℚ)
    (rng : Option ℤ → ℕ → ℕ → ℚ) : List (List ℚ) :=
  ddMatrix req E sd (rng req.seed)

/-- **C3.** With a seed supplied, two invocations of the same simulator
on the same parameter record produce identical ensembles, hence
identical percentile bands.  The embedding models `np.random` as a
deterministic stream indexed by the seed, which is exactly the guarantee
`np.random.seed` provides; the two-run equality is then definitional. -/
theorem seeded_runs_identical (E : ℚ → ℚ) (sd : ℚ)
    (rng : Option ℤ → ℕ → ℕ → ℚ) (s : ℤ)
    (cq cq' : SimRequest) (fq fq' : FireRequest) (dq dq' : DrawdownRequest)
    (hc : cq' = cq) (hf : fq' = fq) (hd : dq' = dq)
    (hcs : cq.seed = some s) (hfs : fq.seed = some s) (hds : dq.seed = some s) :
    compoundRun cq' E sd rng = compoundRun cq E sd rng ∧
    fireRun fq' E sd rng = fireRun fq E sd rng ∧
    ddRun dq' E sd rng = ddRun dq E sd rng ∧
    (∀ q t, npPercentile (column (compoundRun cq' E sd rng) t) q =
      npPercentile (column (compoundRun cq E sd rng) t) q) ∧
    (∀ q t, npPercentile (column (fireRun fq' E sd rng) t) q =
      npPercentile (column (fireRun fq E sd rng) t) q) ∧
    (∀ q t, npPercentile (column (ddRun dq' E sd rng) t) q =
      npPercentile (column (ddRun dq E sd rng) t) q) := by
  subst hc hf hd
  exact ⟨rfl, rfl, rfl, fun q t => rfl, fun q t => rfl, fun q t => rfl⟩

def seededFireReq : FireRequest :=
  { initial_balance := 1000, monthly_disposable := 500,
    monthly_drawdown := 2500, years_to_retire := 1,
    years_in_retirement := 1, expected_return_accum := 7/100,
    expected_return_ret := 5/100, volatility := 18/100,
    inflation := 2/100, expense_ratio := 1/1000, n_sims := 2,
    frequency := 12, decimals := 1, seed := some 42 }

def seededDrawdownReq : DrawdownRequest :=
  { years := 1, expected_return := 7/100, volatility := 18/100,
    expense_ratio := 1/1000, n_sims := 2, frequency := 12,
    decimals := 1, seed := some 42 }

/-- **C3 witness.** The determinism theorem applied to concrete seeded
requests for all three simulators. -/
theorem seeded_runs_identical_witness :
    compoundRun flatReq (fun _ => 1) 0 (fun _ _ _ => 0) =
      compoundRun flatReq (fun _ => 1) 0 (fun _ _ _ => 0) ∧
    fireRun seededFireReq (fun _ => 1) 0 (fun _ _ _ => 0) =
      fireRun seededFireReq (fun _ => 1) 0 (fun _ _ _ => 0) ∧
    ddRun seededDrawdownReq (fun _ => 1) 0 (fun _ _ _ => 0) =
      ddRun seededDrawdownReq (fun _ => 1) 0 (fun _ _ _ => 0) ∧
    (∀ q t, npPercentile
        (column (compoundRun flatReq (fun _ => 1) 0 (fun _ _ _ => 0)) t) q =
      npPercentile
        (column (compoundRun flatReq (fun _ => 1) 0 (fun _ _ _ => 0)) t) q) ∧
    (∀ q t, npPercentile
        (column (fireRun seededFireReq (fun _ => 1) 0 (fun _ _ _ => 0)) t) q =
      npPercentile
        (column (fireRun seededFireReq (fun _ => 1) 0 (fun _ _ _ => 0)) t) q) ∧
    (∀ q t, npPercentile
        (column (ddRun seededDrawdownReq (fun _ => 1) 0 (fun _ _ _ => 0)) t) q =
      npPercentile
        (column (ddRun seededDrawdownReq (fun _ => 1) 0 (fun _ _ _ => 0)) t) q) :=
  seeded_runs_identical (fun _ => 1) 0 (fun _ _ _ => 0) 42
    flatReq flatReq seededFireReq seededFireReq
    seededDrawdownReq seededDrawdownReq rfl rfl rfl rfl rfl rfl

/-- The schedule shape asserted by the spec (Schedule Builder contract):
a per-period amount held constant within a year and multiplied by
`(1 + g)` once every `freq` periods. -/
def specYearlyStep (A g : ℚ) (freq p : ℕ) : ℚ := A * (1 + g) ^ (p / freq)

theorem replicate_getD (c : ℚ) (k p : ℕ) (hp : p < k) :
    (List.replicate k c).getD p 0 = c := by
  rw [List.getD_eq_getElem _ 0 (by simpa using hp)]
  exact List.getElem_replicate c _

theorem flatMap_replicate_getD (l : List ℚ) (k : ℕ) (p : ℕ)
    (hk : 0 < k) (hp : p < l.length * k) :
    (l.flatMap (fun c => List.replicate k c)).getD p 0 = l.getD (p / k) 0 := by
  induction l generalizing p with
  | nil => simp at hp
  | cons c cs ih =>
    rw [List.flatMap_cons]
    rcases Nat.lt_or_ge p k with hlt | hge
    · rw [List.getD_append _ _ _ _ (by simpa using hlt),
        replicate_getD c k p hlt, Nat.div_eq_of_lt hlt]
      rfl
    · have hlen : (List.replicate k c).length ≤ p := by simpa using hge
      rw [List.getD_append_right _ _ _ _ hlen, List.length_replicate]
      have hdiv : p / k = (p - k) / k + 1 := by
        rw [Nat.div_eq_sub_div hk hge]
      have hbound : p - k < cs.length * k := by
        have hlen2 : (c :: cs).length * k = cs.length * k + k := by
          simp [List.length_cons]; ring
        rw [hlen2] at hp
        omega
      rw [ih (p - k) hbound, hdiv]
      rfl

theorem bumpSeq_closed_form (A g : ℚ) (m : ℕ) :
    bumpSeq A g m = A * (1 + g) ^ (m / 12) := by
  induction m with
  | zero => simp [bumpSeq]
  | succ m ih =>
    rw [bumpSeq]
    by_cases h : (m + 1) % 12 = 0
    · rw [if_pos h, ih]
      have hd : (m + 1) / 12 = m / 12 + 1 := by omega
      rw [hd, pow_succ]
      ring
    · rw [if_neg h, ih]
      have hd : (m + 1) / 12 = m / 12 := by omega
      rw [hd]

def fireFreq1Req : FireRequest :=
  { initial_balance := 0, monthly_disposable := 100, monthly_drawdown := 0,
    years_to_retire := 2, years_in_retirement := 0,
    expected_return_accum := 0, expected_return_ret := 0, volatility := 0,
    inflation := 1/2, expense_ratio := 0, n_sims := 1, frequency := 1,
    decimals := 1, seed := none }

/-- **C4 counterexample.** With frequency 1 (one period per year) and
50% growth, the claim predicts the FIRE contribution schedule steps to
150 at the second period (one year boundary later); the code bumps only
every 12 periods and still emits 100. -/
theorem fire_schedule_step_counterexample :
    fireContrib fireFreq1Req 1 = 100 ∧
    specYearlyStep 100 (1/2) 1 1 = 150 ∧
    fireContrib fireFreq1Req 1 ≠ specYearlyStep 100 (1/2) 1 1 := by
  refine ⟨?_, ?_, ?_⟩ <;>
    norm_num [fireContrib, fireFreq1Req, fireTacc, bumpSeq, specYearlyStep]

/-- **C4 (amended).** The compound contribution schedule steps by
`(1+g)` exactly once every `frequency` periods
(`entry p = (A/frequency)·(1+g)^(p/frequency)`), and growth 0 yields a
constant schedule.  The FIRE schedules step once every 12 periods
regardless of the frequency parameter (`bumpSeq m = A·(1+g)^(m/12)`),
which agrees with the claim exactly when frequency = 12; growth 0 again
yields a constant amount. -/
theorem schedule_yearly_step :
    (∀ (A g : ℚ) (years freq p : ℕ), 0 < freq → p < years * freq →
      (contribSchedule A g years freq).getD p 0 =
        specYearlyStep (A / (freq : ℚ)) g freq p) ∧
    (∀ (A g : ℚ) (m : ℕ), bumpSeq A g m = specYearlyStep A g 12 m) ∧
    (∀ (A : ℚ) (years freq p : ℕ), 0 < freq → p < years * freq →
      (contribSchedule A 0 years freq).getD p 0 = A / (freq : ℚ)) ∧
    (∀ (A : ℚ) (m : ℕ), bumpSeq A 0 m = A) := by
  have h1 : ∀ (A g : ℚ) (years freq p : ℕ), 0 < freq → p < years * freq →
      (contribSchedule A g years freq).getD p 0 =
        specYearlyStep (A / (freq : ℚ)) g freq p := by
    intro A g years freq p hfreq hp
    unfold contribSchedule
    rw [flatMap_replicate_getD _ _ _ hfreq (by simpa using hp)]
    have hdlt : p / freq < years :=
      Nat.div_lt_of_lt_mul (by rw [Nat.mul_comm] at hp; exact hp)
    rw [List.getD_eq_getElem _ 0 (by simpa using hdlt)]
    simp only [List.getElem_map, List.getElem_range]
    unfold specYearlyStep
    ring
  refine ⟨h1, ?_, ?_, ?_⟩
  · intro A g m
    rw [bumpSeq_closed_form]
    rfl
  · intro A years freq p hfreq hp
    rw [h1 A 0 years freq p hfreq hp]
    unfold specYearlyStep
    norm_num
  · intro A m
    rw [bumpSeq_closed_form]
    norm_num

/-- **C4 (amended) witness.** The amended schedule theorem applied to
concrete inputs: entry 13 of a two-year monthly compound schedule
(second year, amount 100·1.5), and period 25 of a FIRE bump sequence. -/
theorem schedule_yearly_step_witness :
    (0 < 12 ∧ 13 < 2 * 12 ∧
      (contribSchedule 1200 (1/2) 2 12).getD 13 0 =
        specYearlyStep (1200 / (12:ℚ)) (1/2) 12 13) ∧
    bumpSeq 100 (1/4) 25 = specYearlyStep 100 (1/4) 12 25 :=
  ⟨⟨by norm_num, by norm_num,
    schedule_yearly_step.1 1200 (1/2) 2 12 13 (by norm_num) (by norm_num)⟩,
    schedule_yearly_step.2.1 100 (1/4) 25⟩

/-- `np.argmin`: index of the first occurrence of the minimum
(0 on an empty list). -/
def argminIdx : List ℚ → ℕ
  | [] => 0
  | [_] => 0
  | x :: y :: ys =>
    let j := argminIdx (y :: ys)
    if (y :: ys).getD j 0 < x then j + 1 else 0

/-- The forward scan of the recovery loop: from index `j` with `fuel`
positions left, return the first index whose value is at least `peak`. -/
def scanFrom (path : List ℚ) (peak : ℚ) : ℕ → ℕ → Option ℕ
  | 0, _ => none
  | fuel + 1, j =>
    if peak ≤ path.getD j 0 then some j else scanFrom path peak fuel (j + 1)

/-- `trough_idx = np.argmin(med_dd)` (lines 78-81 of the drawdown app). -/
def ddTrough (p : List ℚ) : ℕ := argminIdx (ddSeries p)

/-- `prev_peak = med_peak[trough_idx]`. -/
def ddPrevPeak (p : List ℚ) : ℚ := (runningMax p).getD (ddTrough p) 0

/-- `rec_idx`: the loop scans `j = trough .. len-1` and keeps `trough`
when no index recovers (lines 82-87). -/
def ddRecIdx (p : List ℚ) : ℕ :=
  (scanFrom p (ddPrevPeak p) (p.length - ddTrough p) (ddTrough p)).getD
    (ddTrough p)

/-- `recovery_months = max(0, rec_idx - trough_idx)` (line 88). -/
def ddRecoveryMonths (p : List ℚ) : ℕ := ddRecIdx p - ddTrough p

/-- `med_path = np.percentile(prices, 50, axis=0)` (line 78). -/
def ddMedPath (req : DrawdownRequest) (E : ℚ → ℚ) (sd : ℚ)
    (z : ℕ → ℕ → ℚ) : List ℚ :=
  (List.range (req.years * req.frequency + 1)).map
    (fun t => npPercentile (column (ddPriceMatrix req E sd z) t) 50)

theorem argminIdx_spec (xs : List ℚ) (hne : xs ≠ []) :
    argminIdx xs < xs.length ∧
      ∀ j < xs.length, xs.getD (argminIdx xs) 0 ≤ xs.getD j 0 := by
  induction xs with
  | nil => exact absurd rfl hne
  | cons x tail ih =>
    cases tail with
    | nil =>
      refine ⟨by simp [argminIdx], ?_⟩
      intro j hj
      simp only [List.length_singleton, Nat.lt_one_iff] at hj
      rw [hj]
      exact le_refl _
    | cons y ys =>
      obtain ⟨ihlt, ihmin⟩ := ih (by simp)
      have harg : argminIdx (x :: y :: ys) =
          if (y :: ys).getD (argminIdx (y :: ys)) 0 < x
          then argminIdx (y :: ys) + 1 else 0 := rfl
      by_cases hc : (y :: ys).getD (argminIdx (y :: ys)) 0 < x
      · rw [harg, if_pos hc]
        refine ⟨by simpa using ihlt, ?_⟩
        intro j hj
        rw [List.getD_cons_succ]
        cases j with
        | zero => rw [List.getD_cons_zero]; exact le_of_lt hc
        | succ k =>
          rw [List.getD_cons_succ]
          exact ihmin k (by simpa using hj)
      · rw [harg, if_neg hc]
        refine ⟨by simp, ?_⟩
        intro j hj
        rw [List.getD_cons_zero]
        cases j with
        | zero => rw [List.getD_cons_zero]
        | succ k =>
          rw [List.getD_cons_succ]
          exact le_trans (not_lt.mp hc) (ihmin k (by simpa using hj))

theorem scanFrom_eq_none (path : List ℚ) (peak : ℚ) (fuel : ℕ) :
    ∀ s, (∀ j, s ≤ j → j < s + fuel → path.getD j 0 < peak) →
      scanFrom path peak fuel s = none := by
  induction fuel with
  | zero => intro s _; rfl
  | succ f ih =>
    intro s hall
    show (if peak ≤ path.getD s 0 then some s else _) = none
    rw [if_neg (not_le.mpr (hall s (le_refl s) (by omega)))]
    exact ih (s + 1) (fun j h1 h2 => hall j (by omega) (by omega))

theorem scanFrom_eq_some (path : List ℚ) (peak : ℚ) (fuel : ℕ) :
    ∀ s j, s ≤ j → j < s + fuel → peak ≤ path.getD j 0 →
      (∀ k, s ≤ k → k < j → path.getD k 0 < peak) →
      scanFrom path peak fuel s = some j := by
  induction fuel with
  | zero => intro s j h1 h2; omega
  | succ f ih =>
    intro s j h1 h2 hpk hmin
    show (if peak ≤ path.getD s 0 then some s else _) = some j
    by_cases hc : peak ≤ path.getD s 0
    · rw [if_pos hc]
      rcases Nat.eq_or_lt_of_le h1 with heq | hlt
      · rw [heq]
      · exact absurd hc (not_le.mpr (hmin s (le_refl s) hlt))
    · rw [if_neg hc]
      have hsj : s ≠ j := by
        intro he
        rw [he] at hc
        exact hc hpk
      exact ih (s + 1) j (by omega) (by omega) hpk
        (fun k hk1 hk2 => hmin k (by omega) hk2)

/-- **C5 (amended).** On the median band the trough is the (first)
argmin of the drawdown series, and when some period at or after the
trough recovers to the peak recorded at the trough, the reported
duration is the distance from the trough to the first such period.
When no recovery period exists within the horizon, however, the loop
leaves `rec_idx` at the trough and the reported duration is `0` — not
the distance from the trough to the last observed index. -/
theorem drawdown_recovery_characterization (p : List ℚ) :
    (p ≠ [] → ddTrough p < (ddSeries p).length ∧
      ∀ j < (ddSeries p).length,
        (ddSeries p).getD (ddTrough p) 0 ≤ (ddSeries p).getD j 0) ∧
    ((∃ j, ddTrough p ≤ j ∧ j < p.length ∧ ddPrevPeak p ≤ p.getD j 0) →
      ddTrough p ≤ ddRecIdx p ∧ ddRecIdx p < p.length ∧
      ddPrevPeak p ≤ p.getD (ddRecIdx p) 0 ∧
      (∀ k, ddTrough p ≤ k → k < ddRecIdx p → p.getD k 0 < ddPrevPeak p) ∧
      ddRecoveryMonths p = ddRecIdx p - ddTrough p) ∧
    ((∀ j, ddTrough p ≤ j → j < p.length → p.getD j 0 < ddPrevPeak p) →
      ddRecoveryMonths p = 0) := by
  refine ⟨?_, ?_, ?_⟩
  · intro hne
    have hdd : ddSeries p ≠ [] := by
      unfold ddSeries
      cases p with
      | nil => exact absurd rfl hne
      | cons a as => simp [runningMax]
    exact argminIdx_spec (ddSeries p) hdd
  · intro hex
    have hpred : ∃ j, ddTrough p ≤ j ∧ j < p.length ∧
        ddPrevPeak p ≤ p.getD j 0 := hex
    classical
    set j0 := Nat.find hpred with hj0
    obtain ⟨hj1, hj2, hj3⟩ := Nat.find_spec hpred
    have hmin : ∀ k, ddTrough p ≤ k → k < j0 → p.getD k 0 < ddPrevPeak p := by
      intro k hk1 hk2
      have := Nat.find_min hpred hk2
      push_neg at this
      exact this hk1 (by omega)
    have hscan : scanFrom p (ddPrevPeak p) (p.length - ddTrough p)
        (ddTrough p) = some j0 :=
      scanFrom_eq_some p (ddPrevPeak p) (p.length - ddTrough p)
        (ddTrough p) j0 hj1 (by omega) hj3 hmin
    have hrec : ddRecIdx p = j0 := by
      unfold ddRecIdx
      rw [hscan]
      rfl
    refine ⟨?_, ?_, ?_, ?_, rfl⟩
    · rw [hrec]; exact hj1
    · rw [hrec]; exact hj2
    · rw [hrec]; exact hj3
    · rw [hrec]; exact hmin
  · intro hall
    have hscan : scanFrom p (ddPrevPeak p) (p.length - ddTrough p)
        (ddTrough p) = none :=
      scanFrom_eq_none p (ddPrevPeak p) (p.length - ddTrough p) (ddTrough p)
        (fun j h1 h2 => hall j h1 (by omega))
    unfold ddRecoveryMonths ddRecIdx
    rw [hscan]
    simp

def ddCexReq : DrawdownRequest :=
  { years := 2, expected_return := 0, volatility := 1, expense_ratio := 0,
    n_sims := 1, frequency := 1, decimals := 1, seed := none }

/-- A stand-in for `np.exp` at the two shock values of the
counterexample run (`exp` is strictly positive there as well). -/
def ddCexExp : ℚ → ℚ := fun x => x + 1

def ddCexZ : ℕ → ℕ → ℚ := fun _ t => if t = 0 then 0 else 7/10

/-- **C5 counterexample.**  A one-path drawdown run whose median band is
`[1, 1/2, 3/5]`: the trough is period 1 with trough peak 1, no later
period returns to the peak, and the code reports recovery duration `0`,
whereas the claim says the duration should be the distance from the
trough to the last observed index, `2 - 1 = 1`. -/
theorem drawdown_no_recovery_counterexample :
    ddMedPath ddCexReq ddCexExp 1 ddCexZ = [1, 1/2, 3/5] ∧
    ddTrough [(1:ℚ), 1/2, 3/5] = 1 ∧
    ddPrevPeak [(1:ℚ), 1/2, 3/5] = 1 ∧
    ([(1:ℚ), 1/2, 3/5]).getD 1 0 < 1 ∧
    ([(1:ℚ), 1/2, 3/5]).getD 2 0 < 1 ∧
    ddRecoveryMonths [(1:ℚ), 1/2, 3/5] = 0 ∧
    ([(1:ℚ), 1/2, 3/5].length - 1) - ddTrough [(1:ℚ), 1/2, 3/5] = 1 ∧
    (0 : ℕ) ≠ 1 := by
  refine ⟨?_, ?_, ?_, ?_, ?_, ?_, ?_, ?_⟩
  · norm_num [ddMedPath, ddPriceMatrix, ddPrice, ddFactor, ddDrift,
      ddCexReq, ddCexExp, ddCexZ, column, npPercentile, List.range_succ,
      List.insertionSort, List.orderedInsert]
  · norm_num [ddTrough, ddSeries, runningMax, runningMaxAux, argminIdx]
  · norm_num [ddPrevPeak, ddTrough, ddSeries, runningMax, runningMaxAux,
      argminIdx]
  · norm_num
  · norm_num
  · norm_num [ddRecoveryMonths, ddRecIdx, ddPrevPeak, ddTrough, ddSeries,
      runningMax, runningMaxAux, argminIdx, scanFrom]
  · norm_num [ddTrough, ddSeries, runningMax, runningMaxAux, argminIdx]
  · norm_num

/-- **C5 (amended) witness.** The characterization applied to the
concrete median bands `[2, 1, 3]` (which recovers at period 2, one
period after its trough) and `[3, 1, 2]` (which never recovers and
reports duration 0). -/
theorem drawdown_recovery_characterization_witness :
    (ddTrough [(2:ℚ), 1, 3] < (ddSeries [(2:ℚ), 1, 3]).length ∧
      ∀ j < (ddSeries [(2:ℚ), 1, 3]).length,
        (ddSeries [(2:ℚ), 1, 3]).getD (ddTrough [(2:ℚ), 1, 3]) 0 ≤
          (ddSeries [(2:ℚ), 1, 3]).getD j 0) ∧
    (ddTrough [(2:ℚ), 1, 3] ≤ ddRecIdx [(2:ℚ), 1, 3] ∧
      ddRecIdx [(2:ℚ), 1, 3] < ([(2:ℚ), 1, 3] : List ℚ).length ∧
      ddPrevPeak [(2:ℚ), 1, 3] ≤
        ([(2:ℚ), 1, 3] : List ℚ).getD (ddRecIdx [(2:ℚ), 1, 3]) 0 ∧
      (∀ k, ddTrough [(2:ℚ), 1, 3] ≤ k → k < ddRecIdx [(2:ℚ), 1, 3] →
        ([(2:ℚ), 1, 3] : List ℚ).getD k 0 < ddPrevPeak [(2:ℚ), 1, 3]) ∧
      ddRecoveryMonths [(2:ℚ), 1, 3] =
        ddRecIdx [(2:ℚ), 1, 3] - ddTrough [(2:ℚ), 1, 3]) ∧
    ddRecoveryMonths [(3:ℚ), 1, 2] = 0 := by
  refine ⟨(drawdown_recovery_characterization [(2:ℚ), 1, 3]).1 (by simp),
    (drawdown_recovery_characterization [(2:ℚ), 1, 3]).2.1 ?_,
    (drawdown_recovery_characterization [(3:ℚ), 1, 2]).2.2 ?_⟩
  · refine ⟨2, ?_, by norm_num, ?_⟩
    · norm_num [ddTrough, ddSeries, runningMax, runningMaxAux, argminIdx]
    · norm_num [ddPrevPeak, ddTrough, ddSeries, runningMax, runningMaxAux,
        argminIdx]
  · intro j h1 h2
    have ht : ddTrough [(3:ℚ), 1, 2] = 1 := by
      norm_num [ddTrough, ddSeries, runningMax, runningMaxAux, argminIdx]
    have hp : ddPrevPeak [(3:ℚ), 1, 2] = 3 := by
      norm_num [ddPrevPeak, ddTrough, ddSeries, runningMax, runningMaxAux,
        argminIdx]
    rw [ht] at h1
    rw [hp]
    simp only [List.length_cons, List.length_nil] at h2
    interval_cases j <;> norm_num

def fireZeroReq : FireRequest :=
  { initial_balance := 0, monthly_disposable := 0, monthly_drawdown := 0,
    years_to_retire := 1, years_in_retirement := 2,
    expected_return_accum := 0, expected_return_ret := 0, volatility := 0,
    inflation := 0, expense_ratio := 0, n_sims := 1, frequency := 1,
    decimals := 1, seed := none }

theorem fireZero_wealth_eq_zero (t : ℕ) :
    fireWealth fireZeroReq (fun _ => 1) 1 (fun _ _ => 0) 0 t = 0 := by
  induction t with
  | zero => rfl
  | succ t ih =>
    rw [fireWealth, ih]
    norm_num [fireContrib, fireDraw, fireZeroReq, bumpSeq_closed_form]

/-- **C8 counterexample.** With monthly_drawdown = 0 and volatility = 0
but zero initial balance and zero contributions, every wealth value is
0: the single path is flagged depleted at the first retirement period
(longevity 1, not the full horizon 2) and `prob_nonzero_end` is 0,
not 1. -/
theorem fire_zero_wealth_counterexample :
    fireLongevity fireZeroReq (fun _ => 1) 1 (fun _ _ => 0) 0 = 1 ∧
    fireTret fireZeroReq = 2 ∧ (1 : ℕ) ≠ 2 ∧
    fireProbNonzeroEnd fireZeroReq (fun _ => 1) 1 (fun _ _ => 0) = 0 ∧
    (0 : ℚ) ≠ 1 := by
  have hw := fireZero_wealth_eq_zero
  refine ⟨?_, rfl, by norm_num, ?_, by norm_num⟩
  · unfold fireLongevity
    have hp : (fun t => decide
        (fireWealth fireZeroReq (fun _ => 1) 1 (fun _ _ => 0) 0 t ≤ 0)) =
        (fun t => true) := by
      funext t
      rw [hw t]
      simp
    rw [hp]
    rfl
  · unfold fireProbNonzeroEnd
    have hp : (fun i => decide
        (0 < fireWealth fireZeroReq (fun _ => 1) 1 (fun _ _ => 0) i
          (fireT fireZeroReq))) = (fun i => decide
        (0 < fireWealth fireZeroReq (fun _ => 1) 1 (fun _ _ => 0) i 3)) := rfl
    have h0 : fireWealth fireZeroReq (fun _ => 1) 1 (fun _ _ => 0) 0 3 = 0 :=
      hw 3
    rw [hp]
    show ((List.filter _ [0]).length : ℚ) / _ = 0
    rw [List.filter_cons]
    rw [h0]
    norm_num

theorem fireWealth_nonneg (req : FireRequest) (E : ℚ → ℚ) (sd : ℚ)
    (z : ℕ → ℕ → ℚ) (i : ℕ) (hinit : 0 ≤ req.initial_balance) (t : ℕ) :
    0 ≤ fireWealth req E sd z i t := by
  cases t with
  | zero => exact hinit
  | succ t => exact le_max_right _ 0

theorem fireDraw_zero (req : FireRequest)
    (hdraw : req.monthly_drawdown = 0) (t : ℕ) : fireDraw req t = 0 := by
  unfold fireDraw
  split
  · rfl
  · rw [bumpSeq_closed_form, hdraw, zero_mul]

theorem fireContrib_nonneg (req : FireRequest)
    (hdisp : 0 ≤ req.monthly_disposable) (hinfl : 0 ≤ req.inflation)
    (t : ℕ) : 0 ≤ fireContrib req t := by
  unfold fireContrib
  split
  · rw [bumpSeq_closed_form]
    exact mul_nonneg hdisp (pow_nonneg (by linarith) _)
  · exact le_refl 0

/-- **C8 (amended).** In the FIRE simulator with `monthly_drawdown = 0`
and `volatility = 0`, whenever wealth is strictly positive at the start
of retirement — guaranteed e.g. by a positive initial balance, or by a
positive monthly contribution and at least one accumulation period —
every path keeps a strictly positive balance through retirement, so
every path's longevity is the full retirement horizon
`years_in_retirement × frequency` and `prob_nonzero_end = 1`.  (Without
that positivity premise the claim fails: see the counterexample with an
identically-zero wealth path.)  The exponential is only assumed
strictly positive. -/
theorem fire_zero_drawdown_full_longevity (req : FireRequest)
    (E : ℚ → ℚ) (sd : ℚ) (z : ℕ → ℕ → ℚ)
    (hE : ∀ x, 0 < E x)
    (hdraw : req.monthly_drawdown = 0)
    (hvol : req.volatility = 0)
    (hinit : 0 ≤ req.initial_balance)
    (hdisp : 0 ≤ req.monthly_disposable)
    (hinfl : 0 ≤ req.inflation)
    (hpos : 0 < req.initial_balance ∨
      (0 < req.monthly_disposable ∧ 1 ≤ fireTacc req))
    (hn : 1 ≤ req.n_sims) :
    (∀ i, fireLongevity req E sd z i = fireTret req) ∧
    fireProbNonzeroEnd req E sd z = 1 := by
  have hfac : ∀ i t, 0 < fireFactor req E sd z i t := by
    intro i t
    unfold fireFactor
    split <;> exact hE _
  have hTacc : ∀ i, 0 < fireWealth req E sd z i (fireTacc req) := by
    intro i
    rcases hpos with hp | ⟨hd, hT1⟩
    · -- positive initial balance stays positive through every period
      have hall : ∀ t, 0 < fireWealth req E sd z i t := by
        intro t
        induction t with
        | zero => exact hp
        | succ t ih =>
          rw [fireWealth]
          have hflow : 0 ≤ fireContrib req t - fireDraw req t := by
            rw [fireDraw_zero req hdraw]
            simpa using fireContrib_nonneg req hdisp hinfl t
          have hx : 0 < fireWealth req E sd z i t * fireFactor req E sd z i t +
              (fireContrib req t - fireDraw req t) := by
            have := mul_pos ih (hfac i t)
            linarith
          exact lt_of_lt_of_le hx (le_max_left _ _)
      exact hall (fireTacc req)
    · -- the final accumulation contribution is strictly positive
      obtain ⟨t0, ht0⟩ : ∃ t0, fireTacc req = t0 + 1 :=
        ⟨fireTacc req - 1, by omega⟩
      rw [ht0, fireWealth]
      have hc : fireContrib req t0 =
          bumpSeq req.monthly_disposable req.inflation t0 := by
        unfold fireContrib
        rw [if_pos (by omega)]
      have hcpos : 0 < fireContrib req t0 := by
        rw [hc, bumpSeq_closed_form]
        exact mul_pos hd (pow_pos (by linarith) _)
      have hwf : 0 ≤ fireWealth req E sd z i t0 * fireFactor req E sd z i t0 :=
        mul_nonneg (fireWealth_nonneg req E sd z i hinit t0)
          (le_of_lt (hfac i t0))
      have hx : 0 < fireWealth req E sd z i t0 * fireFactor req E sd z i t0 +
          (fireContrib req t0 - fireDraw req t0) := by
        rw [fireDraw_zero req hdraw]
        linarith
      exact lt_of_lt_of_le hx (le_max_left _ _)
  have hret : ∀ i k, 0 < fireWealth req E sd z i (fireTacc req + k) := by
    intro i k
    induction k with
    | zero => exact hTacc i
    | succ k ih =>
      rw [← Nat.add_assoc, fireWealth]
      have hc0 : fireContrib req (fireTacc req + k) = 0 := by
        unfold fireContrib
        rw [if_neg (by omega)]
      have hx : 0 < fireWealth req E sd z i (fireTacc req + k) *
          fireFactor req E sd z i (fireTacc req + k) +
          (fireContrib req (fireTacc req + k) -
            fireDraw req (fireTacc req + k)) := by
        rw [hc0, fireDraw_zero req hdraw]
        simpa using mul_pos ih (hfac i (fireTacc req + k))
      exact lt_of_lt_of_le hx (le_max_left _ _)
  have hafter : ∀ i t, fireTacc req ≤ t → 0 < fireWealth req E sd z i t := by
    intro i t ht
    have : t = fireTacc req + (t - fireTacc req) := by omega
    rw [this]
    exact hret i (t - fireTacc req)
  constructor
  · intro i
    unfold fireLongevity
    have hnone : (List.range' (fireTacc req + 1) (fireTret req)).find?
        (fun t => decide (fireWealth req E sd z i t ≤ 0)) = none := by
      rw [List.find?_eq_none]
      intro t hmem
      rw [List.mem_range'_1] at hmem
      simp only [decide_eq_true_eq, not_le]
      exact hafter i t (by omega)
    rw [hnone]
  · unfold fireProbNonzeroEnd
    have hfilter : (List.range req.n_sims).filter
        (fun i => decide (0 < fireWealth req E sd z i (fireT req))) =
        List.range req.n_sims := by
      rw [List.filter_eq_self]
      intro i _
      simp only [decide_eq_true_eq]
      exact hafter i (fireT req) (by unfold fireT; omega)
    rw [hfilter, List.length_range]
    have : (req.n_sims : ℚ) ≠ 0 := by
      have : 0 < req.n_sims := hn
      positivity
    field_simp

def fireWitReq : FireRequest :=
  { initial_balance := 1000, monthly_disposable := 0, monthly_drawdown := 0,
    years_to_retire := 1, years_in_retirement := 1,
    expected_return_accum := 0, expected_return_ret := 0, volatility := 0,
    inflation := 0, expense_ratio := 0, n_sims := 1, frequency := 1,
    decimals := 1, seed := none }

/-- **C8 (amended) witness.** The amended theorem at a concrete request
with a positive initial balance, the constant-one exponential and the
all-zero draw matrix. -/
theorem fire_zero_drawdown_full_longevity_witness :
    (∀ i, fireLongevity fireWitReq (fun _ => 1) 1 (fun _ _ => 0) i =
      fireTret fireWitReq) ∧
    fireProbNonzeroEnd fireWitReq (fun _ => 1) 1 (fun _ _ => 0) = 1 :=
  fire_zero_drawdown_full_longevity fireWitReq (fun _ => 1) 1 (fun _ _ => 0)
    (fun _ => by norm_num) rfl rfl (by norm_num [fireWitReq])
    (by norm_num [fireWitReq]) (by norm_num [fireWitReq])
    (Or.inl (by norm_num [fireWitReq])) (by norm_num [fireWitReq])

/-- `_pmt` of the mortgage app: annuity payment for per-month rate `i`
over `n` months; `n ≤ 0` returns the balance, `|i| < 1e-12` degrades to
equal installments. -/
def pmtQ (balance i : ℚ) (n : ℤ) : ℚ :=
  if n ≤ 0 then balance
  else if |i| < 1/1000000000000 then balance / (n : ℚ)
  else balance * i / (1 - (1 + i) ^ (-n))

/-- One period record of `_amortize`: balance after the payment, the
scheduled payment, the total payment (with overpay and lumps), the
interest accrued and the principal actually paid. -/
structure AmortRow where
  balance_after : ℚ
  sched : ℚ
  total : ℚ
  interest : ℚ
  principal_paid : ℚ
deriving DecidableEq

/-- The `for m in range(1, term_m + 1)` loop of `_amortize`, with the
remaining months as structural fuel.  The loop body: pick the phase
rate, optionally recompute the payment at the fixed→variable switch,
accrue interest, add the lump for this month, update the balance,
snap `-1e-6 < new_bal < 0` to zero, and stop once the balance is
non-positive. -/
def amortGo (i_fixed i_var : ℚ) (fixed_m term_m : ℕ) (overpay : ℚ)
    (extra : ℤ → ℚ) (recalc : Bool) : ℕ → ℕ → ℚ → ℚ → List AmortRow
  | 0, _, _, _ => []
  | fuel + 1, m, bal, pmtCur =>
    let current_rate := if m ≤ fixed_m then i_fixed else i_var
    let pmtNew := if recalc = true ∧ m = fixed_m + 1 then
        pmtQ bal current_rate ((term_m : ℤ) - ((m : ℤ) - 1)) else pmtCur
    let intr := bal * current_rate
    let lump := extra (m : ℤ)
    let pay := pmtNew + overpay + lump
    let nb0 := bal + intr - pay
    let nb := if nb0 < 0 ∧ -(1/1000000) < nb0 then 0 else nb0
    let row : AmortRow := ⟨nb, pmtNew, pay, intr, pay - intr⟩
    if nb ≤ 0 then [row]
    else row :: amortGo i_fixed i_var fixed_m term_m overpay extra recalc
      fuel (m + 1) nb pmtNew

/-- `_amortize`: run the loop from month 1 at the initial phase-1
payment `_pmt(principal, fixed_rate/12, term_m)`. -/
def amortizeQ (principal : ℚ) (term_m fixed_m : ℕ)
    (fixed_r_yr var_r_yr monthly_overpay : ℚ) (extra : ℤ → ℚ)
    (recalc : Bool) : List AmortRow :=
  amortGo (fixed_r_yr / 12) (var_r_yr / 12) fixed_m term_m monthly_overpay
    extra recalc term_m 1 principal
    (pmtQ principal (fixed_r_yr / 12) (term_m : ℤ))

/-- `ExtraPayment` of the mortgage app: year/month offsets and a lump
amount. -/
structure ExtraPayment where
  year : ℤ
  month : ℤ
  amount : ℚ

/-- The `extra_map` construction: index `year*12 + month + 1`, kept only
when it lies in `[1, term_m]`, amounts targeting the same index
accumulating additively. -/
def buildExtraMap (eps : List ExtraPayment) (term_m : ℕ) : ℤ → ℚ :=
  eps.foldl (fun mp ep =>
    if 1 ≤ ep.year * 12 + ep.month + 1 ∧
        ep.year * 12 + ep.month + 1 ≤ (term_m : ℤ) then
      fun k => if k = ep.year * 12 + ep.month + 1 then
        mp k + ep.amount else mp k
    else mp) (fun _ => 0)

/-- **C7.** The scheduled payment follows the three-case contract of
`_pmt` — `balance` when `n ≤ 0`, equal installments `balance/n` when
`|i| < 1e-12`, and the annuity formula `balance·i/(1-(1+i)^(-n))`
otherwise — and the concrete flat loan (principal 100000, one period,
rate 0) pays exactly 100000 once with ending balance 0. -/
theorem pmt_formula_and_flat_loan :
    (∀ (balance i : ℚ) (n : ℤ), n ≤ 0 → pmtQ balance i n = balance) ∧
    (∀ (balance i : ℚ) (n : ℤ), 0 < n → |i| < 1/1000000000000 →
      pmtQ balance i n = balance / (n : ℚ)) ∧
    (∀ (balance i : ℚ) (n : ℤ), 0 < n → 1/1000000000000 ≤ |i| →
      pmtQ balance i n = balance * i / (1 - (1 + i) ^ (-n))) ∧
    (100000 : ℚ) ::
        (amortizeQ 100000 1 1 0 0 0 (fun _ => 0) true).map
          (fun r => r.balance_after) = [100000, 0] ∧
    (amortizeQ 100000 1 1 0 0 0 (fun _ => 0) true).map (fun r => r.sched) =
      [100000] := by
  refine ⟨?_, ?_, ?_, ?_, ?_⟩
  · intro balance i n hn
    unfold pmtQ
    rw [if_pos hn]
  · intro balance i n hn hi
    unfold pmtQ
    rw [if_neg (by omega), if_pos hi]
  · intro balance i n hn hi
    unfold pmtQ
    rw [if_neg (by omega), if_neg (not_lt.mpr hi)]
  · norm_num [amortizeQ, amortGo, pmtQ]
  · norm_num [amortizeQ, amortGo, pmtQ]

/-- **C7 witness.** The three `_pmt` cases applied at concrete inputs
(`n = 0`; `i = 0, n = 3`; `i = 1, n = 2`). -/
theorem pmt_formula_and_flat_loan_witness :
    pmtQ 5 3 0 = 5 ∧ pmtQ 12 0 3 = 12 / ((3 : ℤ) : ℚ) ∧
    pmtQ 100 1 2 = 100 * 1 / (1 - (1 + 1 : ℚ) ^ (-(2:ℤ))) :=
  ⟨pmt_formula_and_flat_loan.1 5 3 0 (by norm_num),
   pmt_formula_and_flat_loan.2.1 12 0 3 (by norm_num) (by norm_num),
   pmt_formula_and_flat_loan.2.2.1 100 1 2 (by norm_num) (by norm_num)⟩

/-- Banker's rounding (`np.round` ties-to-even) to `d` decimals, over
exact rationals. -/
def roundHalfEven (x : ℚ) : ℤ :=
  let f := ⌊x⌋
  let r := x - (f : ℚ)
  if r < 1/2 then f
  else if 1/2 < r then f + 1
  else if f % 2 = 0 then f else f + 1

def npRound (x : ℚ) (d : ℕ) : ℚ := (roundHalfEven (x * 10 ^ d) : ℚ) / 10 ^ d

/-- `_pad`: truncate to length `L` or repeat the final value. -/
def padListQ (arr : List ℚ) (L : ℕ) : List ℚ :=
  if L ≤ arr.length then arr.take L
  else arr ++ List.replicate (L - arr.length) ((arr.getLast?).getD 0)

/-- The scan of `_payoff_month`: index of the first balance `≤ 0`. -/
def payoffMonthGo : List ℚ → Option ℕ
  | [] => none
  | v :: vs => if v ≤ 0 then some 0 else (payoffMonthGo vs).map (· + 1)

/-- `_payoff_month`: first index with balance `≤ 0`, else the last
index of the series. -/
def payoffMonth (bals : List ℚ) : ℕ :=
  (payoffMonthGo bals).getD (bals.length - 1)

/-- Request record of the mortgage app (`MortgageRequest`); the start
date only affects calendar labels, which are modelled by their month
offsets. -/
structure MortgageRequest where
  principal : ℚ
  term_years : ℕ
  fixed_years : ℕ
  fixed_rate : ℚ
  variable_rate : ℚ
  monthly_overpayment : ℚ
  extra_payments : List ExtraPayment
  recalc_on_rate_change : Bool
  decimals : ℤ

def mortTermM (req : MortgageRequest) : ℕ := req.term_years * 12

def mortFixedM (req : MortgageRequest) : ℕ := req.fixed_years * 12

def mortExtra (req : MortgageRequest) : ℤ → ℚ :=
  buildExtraMap req.extra_payments (mortTermM req)

def mortMainRows (req : MortgageRequest) (extra : ℤ → ℚ) : List AmortRow :=
  amortizeQ req.principal (mortTermM req) (mortFixedM req) req.fixed_rate
    req.variable_rate req.monthly_overpayment extra req.recalc_on_rate_change

def mortBaseRows (req : MortgageRequest) : List AmortRow :=
  amortizeQ req.principal (mortTermM req) (mortFixedM req) req.fixed_rate
    req.variable_rate 0 (fun _ => 0) req.recalc_on_rate_change

def mortBalances (req : MortgageRequest) (extra : ℤ → ℚ) : List ℚ :=
  req.principal :: (mortMainRows req extra).map (fun r => r.balance_after)

def mortBaseBalances (req : MortgageRequest) : List ℚ :=
  req.principal :: (mortBaseRows req).map (fun r => r.balance_after)

def mortL (req : MortgageRequest) (extra : ℤ → ℚ) : ℕ :=
  max (mortBalances req extra).length (mortBaseBalances req).length

def mortBalancesPadded (req : MortgageRequest) (extra : ℤ → ℚ) : List ℚ :=
  padListQ (mortBalances req extra) (mortL req extra)

/-- `ending_balance = float(balances[-1])` on the padded, unrounded
series. -/
def mortEnding (req : MortgageRequest) (extra : ℤ → ℚ) : ℚ :=
  ((mortBalancesPadded req extra).getLast?).getD 0

/-- The mortgage response; `labels` and the payoff dates are modelled
by month offsets from the start date. -/
structure MortgageResp where
  labels : List ℕ
  balance : List ℚ
  baseline_balance : List ℚ
  schedule_payment : List ℚ
  total_payment : List ℚ
  interest : List ℚ
  principal : List ℚ
  payoff_months : ℕ
  payoff_date_offset : ℕ
  baseline_payoff_months : ℕ
  baseline_payoff_date_offset : ℕ
  total_interest : ℚ
  baseline_total_interest : ℚ
  interest_saved : ℚ
  months_saved : ℕ
  ending_balance : ℚ
  is_balloon : Bool
  fixed_months : ℕ
deriving DecidableEq

/-- The `/mortgage` endpoint body, parametrized by the already-built
extra-payment map (which depends only on `extra_payments` and the
term). -/
def mortgageRespCore (req : MortgageRequest) (extra : ℤ → ℚ) :
    MortgageResp :=
  let fixed_m := mortFixedM req
  let d := req.decimals.toNat
  let rows := mortMainRows req extra
  let brows := mortBaseRows req
  let bbalances := mortBaseBalances req
  let L := mortL req extra
  let balancesP := mortBalancesPadded req extra
  let bbalancesP := padListQ bbalances L
  let schedP := padListQ (rows.map (fun r => r.sched)) (L - 1)
  let totalP := padListQ (rows.map (fun r => r.total)) (L - 1)
  let intrP := padListQ (rows.map (fun r => r.interest)) (L - 1)
  let princP := padListQ (rows.map (fun r => r.principal_paid)) (L - 1)
  let m_off := payoffMonth balancesP
  let m_base := payoffMonth bbalances
  let total_interest := intrP.sum
  let baseline_interest := ((brows.map (fun r => r.interest))).sum
  let interest_saved := max 0 (baseline_interest - total_interest)
  let months_saved := m_base - m_off
  let ending_balance := mortEnding req extra
  { labels := List.range L,
    balance := balancesP.map (fun x => npRound x d),
    baseline_balance := bbalancesP.map (fun x => npRound x d),
    schedule_payment := ((0 : ℚ) :: schedP).map (fun x => npRound x d),
    total_payment := ((0 : ℚ) :: totalP).map (fun x => npRound x d),
    interest := ((0 : ℚ) :: intrP).map (fun x => npRound x d),
    principal := ((0 : ℚ) :: princP).map (fun x => npRound x d),
    payoff_months := m_off,
    payoff_date_offset := m_off,
    baseline_payoff_months := m_base,
    baseline_payoff_date_offset := m_base,
    total_interest := npRound total_interest d,
    baseline_total_interest := npRound baseline_interest d,
    interest_saved := npRound interest_saved d,
    months_saved := months_saved,
    ending_balance := npRound ending_balance d,
    is_balloon := decide (0 < ending_balance),
    fixed_months := fixed_m }

def mortgageResp (req : MortgageRequest) : MortgageResp :=
  mortgageRespCore req (mortExtra req)

/-- **C9.** An extra payment whose absolute month index
`year*12 + month + 1` falls outside `[1, term_months]` is filtered out
of the extra-payment map, so adding it to a request leaves the entire
response — every series and every summary field — unchanged (and the
embedding is total: no error is raised). -/
theorem mortgage_out_of_range_extra_ignored (req : MortgageRequest)
    (ep : ExtraPayment)
    (h : ep.year * 12 + ep.month + 1 < 1 ∨
      (mortTermM req : ℤ) < ep.year * 12 + ep.month + 1) :
    mortgageResp
      { req with extra_payments := req.extra_payments ++ [ep] } =
      mortgageResp req := by
  have hmap : buildExtraMap (req.extra_payments ++ [ep]) (mortTermM req) =
      buildExtraMap req.extra_payments (mortTermM req) := by
    unfold buildExtraMap
    rw [List.foldl_append]
    show (if 1 ≤ ep.year * 12 + ep.month + 1 ∧
        ep.year * 12 + ep.month + 1 ≤ ((mortTermM req : ℕ) : ℤ)
      then _ else _) = _
    rw [if_neg (by omega)]
  have h1 : mortgageResp
      { req with extra_payments := req.extra_payments ++ [ep] } =
      mortgageRespCore req
        (buildExtraMap (req.extra_payments ++ [ep]) (mortTermM req)) := rfl
  have h2 : mortgageResp req =
      mortgageRespCore req
        (buildExtraMap req.extra_payments (mortTermM req)) := rfl
  rw [h1, h2, hmap]

def mortWitReq : MortgageRequest :=
  { principal := 1200, term_years := 1, fixed_years := 1, fixed_rate := 0,
    variable_rate := 0, monthly_overpayment := -50, extra_payments := [],
    recalc_on_rate_change := true, decimals := 1 }

/-- **C9 witness.** Adding an extra payment five years past the end of
a one-year loan (index 61 > 12) leaves the response unchanged. -/
theorem mortgage_out_of_range_extra_ignored_witness :
    mortgageResp
      { mortWitReq with extra_payments :=
          mortWitReq.extra_payments ++ [⟨5, 0, 500⟩] } =
      mortgageResp mortWitReq :=
  mortgage_out_of_range_extra_ignored mortWitReq ⟨5, 0, 500⟩
    (Or.inr (by norm_num [mortTermM, mortWitReq]))

theorem payoffMonthGo_eq_none (bals : List ℚ)
    (h : ∀ v ∈ bals, ¬ v ≤ 0) : payoffMonthGo bals = none := by
  induction bals with
  | nil => rfl
  | cons v vs ih =>
    rw [payoffMonthGo]
    rw [if_neg (h v (List.mem_cons_self v vs)),
      ih (fun w hw => h w (List.mem_cons_of_mem v hw))]
    rfl

/-- **C10.** For a balloon loan — one whose (padded, unrounded) balance
series never reaches a value `≤ 0` — the reported `payoff_months` is
the last index of the balance series, and a payoff date offset is still
emitted at that same index, so the summary cannot distinguish "paid off
exactly at the final period" from "never paid off"; `is_balloon` is
true exactly when the final unrounded balance is strictly positive. -/
theorem mortgage_balloon_payoff (req : MortgageRequest)
    (h : ∀ v ∈ mortBalancesPadded req (mortExtra req), ¬ v ≤ 0) :
    (mortgageResp req).payoff_months =
      (mortBalancesPadded req (mortExtra req)).length - 1 ∧
    (mortgageResp req).payoff_date_offset = (mortgageResp req).payoff_months ∧
    ((mortgageResp req).is_balloon = true ↔
      0 < mortEnding req (mortExtra req)) := by
  have hpm : (mortgageResp req).payoff_months =
      payoffMonth (mortBalancesPadded req (mortExtra req)) := rfl
  refine ⟨?_, rfl, ?_⟩
  · rw [hpm]
    unfold payoffMonth
    rw [payoffMonthGo_eq_none _ h]
    rfl
  · show decide (0 < mortEnding req (mortExtra req)) = true ↔ _
    simp

/-- **C10 witness.** A one-year loan at rate 0 with a −50 monthly
overpayment only repays 600 of the 1200 principal: its balance series
stays strictly positive, `payoff_months` is reported as the final index
12, a payoff date offset is emitted there, and `is_balloon` is true. -/
theorem mortgage_balloon_payoff_witness :
    (mortgageResp mortWitReq).payoff_months =
      (mortBalancesPadded mortWitReq (mortExtra mortWitReq)).length - 1 ∧
    (mortgageResp mortWitReq).payoff_date_offset =
      (mortgageResp mortWitReq).payoff_months ∧
    ((mortgageResp mortWitReq).is_balloon = true ↔
      0 < mortEnding mortWitReq (mortExtra mortWitReq)) := by
  apply mortgage_balloon_payoff mortWitReq
  have hlist : mortBalancesPadded mortWitReq (mortExtra mortWitReq) =
      [1200, 1150, 1100, 1050, 1000, 950, 900, 850, 800, 750, 700, 650,
        600] := by
    norm_num [mortBalancesPadded, padListQ, mortBalances, mortMainRows,
      mortL, mortBaseBalances, mortBaseRows, amortizeQ, amortGo, pmtQ,
      mortExtra, buildExtraMap, mortTermM, mortFixedM, mortWitReq]
  intro v hv
  rw [hlist] at hv
  fin_cases hv <;> norm_num

/-- Extended values modelling IEEE-754 doubles for the sanitization
claim: exact rational finite values plus `nan`/`±inf`.  Finite
arithmetic is exact (no rounding) except that any result of magnitude
at least `2^1024` overflows to the signed infinity, as it does for
doubles; the special values propagate by the IEEE rules
(`inf - inf = nan`, comparisons with `nan` are false, ...).  Ordinary
Python float division by zero raises instead of producing `inf`; that
case is modelled as `nan` and is unreachable in every run considered
here. -/
inductive XF where
  | nan : XF
  | pinf : XF
  | ninf : XF
  | fin : ℚ → XF
deriving DecidableEq

def xfMax : ℚ := 2 ^ 1024

def XF.mk (q : ℚ) : XF :=
  if xfMax ≤ q then .pinf else if q ≤ -xfMax then .ninf else .fin q

def XF.neg : XF → XF
  | nan => nan
  | pinf => ninf
  | ninf => pinf
  | fin a => fin (-a)

def XF.add : XF → XF → XF
  | nan, _ => nan
  | _, nan => nan
  | pinf, ninf => nan
  | ninf, pinf => nan
  | pinf, _ => pinf
  | _, pinf => pinf
  | ninf, _ => ninf
  | _, ninf => ninf
  | fin a, fin b => mk (a + b)

def XF.sub (x y : XF) : XF := x.add y.neg

def XF.mul : XF → XF → XF
  | nan, _ => nan
  | _, nan => nan
  | pinf, pinf => pinf
  | pinf, ninf => ninf
  | ninf, pinf => ninf
  | ninf, ninf => pinf
  | pinf, fin b => if b = 0 then nan else if 0 < b then pinf else ninf
  | fin a, pinf => if a = 0 then nan else if 0 < a then pinf else ninf
  | ninf, fin b => if b = 0 then nan else if 0 < b then ninf else pinf
  | fin a, ninf => if a = 0 then nan else if 0 < a then ninf else pinf
  | fin a, fin b => mk (a * b)

def XF.div : XF → XF → XF
  | nan, _ => nan
  | _, nan => nan
  | pinf, pinf => nan
  | pinf, ninf => nan
  | ninf, pinf => nan
  | ninf, ninf => nan
  | pinf, fin b => if 0 ≤ b then pinf else ninf
  | ninf, fin b => if 0 ≤ b then ninf else pinf
  | fin _, pinf => fin 0
  | fin _, ninf => fin 0
  | fin a, fin b => if b = 0 then nan else mk (a / b)

def XF.zpow : XF → ℤ → XF
  | nan, _ => nan
  | pinf, k => if k < 0 then fin 0 else if k = 0 then fin 1 else pinf
  | ninf, k =>
    if k < 0 then fin 0 else if k = 0 then fin 1
    else if k % 2 = 0 then pinf else ninf
  | fin a, k => if a = 0 ∧ k < 0 then nan else mk (a ^ k)

/-- IEEE `<`: false whenever a `nan` is involved. -/
def XF.lt : XF → XF → Bool
  | nan, _ => false
  | _, nan => false
  | pinf, _ => false
  | ninf, ninf => false
  | ninf, _ => true
  | fin _, pinf => true
  | fin _, ninf => false
  | fin a, fin b => decide (a < b)

/-- IEEE `<=`: false whenever a `nan` is involved. -/
def XF.le : XF → XF → Bool
  | nan, _ => false
  | _, nan => false
  | ninf, _ => true
  | _, pinf => true
  | pinf, _ => false
  | fin _, ninf => false
  | fin a, fin b => decide (a ≤ b)

def XF.abs : XF → XF
  | nan => nan
  | pinf => pinf
  | ninf => pinf
  | fin a => fin |a|

def XF.isFinite : XF → Bool
  | fin _ => true
  | _ => false

/-- `_pmt` over extended values. -/
def pmtXF (balance i : XF) (n : ℤ) : XF :=
  if n ≤ 0 then balance
  else if (i.abs.lt (.fin (1/1000000000000))) = true then
    balance.div (.fin (n : ℚ))
  else (balance.mul i).div ((XF.fin 1).sub (((XF.fin 1).add i).zpow (-n)))

/-- The `_amortize` loop over extended values, recording the balance
series; Python's `<`/`<=` on a `nan` balance are false, so the loop
keeps running to the term boundary. -/
def amortGoXF (i_fixed i_var : XF) (fixed_m term_m : ℕ) (overpay : XF)
    (extra : ℤ → XF) (recalc : Bool) : ℕ → ℕ → XF → XF → List XF
  | 0, _, _, _ => []
  | fuel + 1, m, bal, pmtCur =>
    let current_rate := if m ≤ fixed_m then i_fixed else i_var
    let pmtNew := if recalc = true ∧ m = fixed_m + 1 then
        pmtXF bal current_rate ((term_m : ℤ) - ((m : ℤ) - 1)) else pmtCur
    let intr := bal.mul current_rate
    let pay := (pmtNew.add overpay).add (extra (m : ℤ))
    let nb0 := (bal.add intr).sub pay
    let nb := if (nb0.lt (.fin 0)) = true ∧
        ((XF.fin (-(1/1000000))).lt nb0) = true then .fin 0 else nb0
    if (nb.le (.fin 0)) = true then [nb]
    else nb :: amortGoXF i_fixed i_var fixed_m term_m overpay extra recalc
      fuel (m + 1) nb pmtNew

def amortBalancesXF (principal : XF) (term_m fixed_m : ℕ)
    (fixed_r_yr var_r_yr overpay : XF) (extra : ℤ → XF) (recalc : Bool) :
    List XF :=
  principal :: amortGoXF (fixed_r_yr.div (.fin 12)) (var_r_yr.div (.fin 12))
    fixed_m term_m overpay extra recalc term_m 1 principal
    (pmtXF principal (fixed_r_yr.div (.fin 12)) (term_m : ℤ))

def roundXF (x : XF) (d : ℕ) : XF :=
  match x with
  | .nan => .nan
  | .pinf => .pinf
  | .ninf => .ninf
  | .fin q => .fin (npRound q d)

def padListXF (arr : List XF) (L : ℕ) : List XF :=
  if L ≤ arr.length then arr.take L
  else arr ++ List.replicate (L - arr.length) ((arr.getLast?).getD (.fin 0))

/-- The `balance` field returned for principal `2^1023`, term 1 year,
fixed rate 48 (per-month rate 4), no overpayment and no lumps: the
padded, rounded main balance series (main and baseline runs coincide,
so `L` is the series length itself).  Every value after the first month
is `nan`: `bal*i = 2^1025` overflows to `inf`, and
`bal + inf - inf = nan`. -/
def mortgageBalanceXF : List XF :=
  let bals := amortBalancesXF (.fin (2 ^ 1023)) 12 12 (.fin 48) (.fin 48)
    (.fin 0) (fun _ => .fin 0) true
  (padListXF bals bals.length).map (fun x => roundXF x 1)

/-- `sanitize_list` / `tolist_safe`:
`np.nan_to_num(xs, nan=0.0, posinf=0.0, neginf=0.0)` elementwise. -/
def sanitizeXF : XF → XF
  | .nan => .fin 0
  | .pinf => .fin 0
  | .ninf => .fin 0
  | .fin q => .fin q

/-- **C6 counterexample.** The mortgage calculator applies no
sanitization to its outputs: for principal `2^1023` (an exactly
representable double accepted by validation) at 4800% fixed rate, the
returned balance series contains `nan` — the claim that every returned
numeric value of every calculator is non-NaN/non-infinite fails on the
amortization response. -/
theorem mortgage_response_contains_nan :
    XF.nan ∈ mortgageBalanceXF ∧ XF.isFinite XF.nan = false := by
  constructor
  · have hlist : mortgageBalanceXF =
        XF.fin (2 ^ 1023) :: List.replicate 12 XF.nan := by
      norm_num [mortgageBalanceXF, amortBalancesXF, amortGoXF, pmtXF,
        padListXF, roundXF, npRound, roundHalfEven, XF.mk, XF.add, XF.sub,
        XF.neg, XF.mul, XF.div, XF.zpow, XF.lt, XF.le, XF.abs, xfMax,
        List.replicate]
    rw [hlist]
    simp
  · rfl

/-- **C6 (amended).** The three simulators pass their output sequences
through `nan_to_num(·, nan=0, posinf=0, neginf=0)`, so every sanitized
sequence element is finite (non-finite values are replaced with zero).
The amortization calculator, by contrast, applies no sanitization at
all and can return `nan` (see the counterexample); sanitization is
therefore not uniform across all four calculators. -/
theorem sanitized_outputs_finite (xs : List XF) (v : XF)
    (hv : v ∈ xs.map sanitizeXF) : XF.isFinite v = true := by
  rw [List.mem_map] at hv
  obtain ⟨w, _, rfl⟩ := hv
  cases w <;> rfl

/-- **C6 (amended) witness.** Sanitizing a list holding `nan` yields a
finite value. -/
theorem sanitized_outputs_finite_witness :
    XF.isFinite (sanitizeXF XF.nan) = true :=
  sanitized_outputs_finite [XF.nan] (sanitizeXF XF.nan) (by simp)
